import Mathlib

/-!
Verification of the user-service core of a Go clean-architecture repository.

The embedding covers:
* the `User` entity with its validity predicate and activate/deactivate
  operations (internal/entity);
* the named error values of internal/entity/errors.go as an inductive `Err`
  (plus `ErrEmailTaken` for the ad-hoc `fmt.Errorf` value produced by
  `UpdateUser`, and `ErrOther` for unclassified lower-layer failures such as
  connectivity errors);
* the repository contract as a state-passing structure `UserRepository σ`,
  so that both an arbitrary pure repository (instrumented with a call trace)
  and the concrete soft-deleting store-backed repository instantiate the
  same use-case definitions;
* the use-case operations of internal/usecase/user_usecase.go, translated
  line by line.

Go's `(value, error)` pairs are modelled as `Option value × Option Err`
(`nil` pointer = `none`, `nil` error = `none`); Go `uint` ids as `Nat`;
Go `int`/`int64` as `Int`.
-/

namespace GoCA

/-- The `User` entity (internal/entity/user.go).  `DeletedAt` is a nullable
soft-delete marker in the source; only its presence matters to the logic, so
it is modelled by the Boolean field `Deleted`.  The `CreatedAt`/`UpdatedAt`
timestamps are set by the persistence layer and never read by the core
logic, so they are not modelled. -/
structure User where
  ID : Nat
  Name : String
  Email : String
  Phone : String
  Active : Bool
  Deleted : Bool
deriving DecidableEq, Repr

/-- `IsValid` (internal/entity/user.go): name and email both non-empty. -/
def User.IsValid (u : User) : Bool :=
  u.Name ≠ "" && u.Email ≠ ""

/-- `Activate` (internal/entity/user.go): sets the user active. -/
def User.Activate (u : User) : User :=
  { u with Active := true }

/-- `Deactivate` (internal/entity/user.go): sets the user inactive. -/
def User.Deactivate (u : User) : User :=
  { u with Active := false }

/-- The error values of internal/entity/errors.go, plus the distinct
`fmt.Errorf("email already taken by another user")` value created inside
`UpdateUser` (`ErrEmailTaken`), plus a constructor `ErrOther` for any other
lower-layer error (connectivity failure, cancellation, panic).  All
`errors.New` values are pairwise distinct, which the inductive captures. -/
inductive Err where
  | ErrUserNotFound
  | ErrInvalidUserName
  | ErrInvalidUserEmail
  | ErrUserAlreadyExists
  | ErrInvalidUserID
  | ErrEmailTaken
  | ErrOther (msg : String)
deriving DecidableEq, Repr

/-- One repository invocation, with its arguments: used to record the exact
sequence of persistence calls a use-case operation performs. -/
inductive RepoCall where
  | create (user : User)
  | getByID (id : Nat)
  | getByEmail (email : String)
  | getAll (limit offset : Int)
  | update (user : User)
  | delete (id : Nat)
  | count
deriving DecidableEq, Repr

/-- The repository contract (internal/usecase/interfaces, §4.2 of the spec)
in state-passing style: each operation consumes a state `σ` and returns its
Go result together with the successor state.  A pure repository uses
`σ := List RepoCall` (the state is the call trace); the store-backed
repository uses `σ := List User`. -/
structure UserRepository (σ : Type) where
  Create : σ → User → Option Err × σ
  GetByID : σ → Nat → (Option User × Option Err) × σ
  GetByEmail : σ → String → (Option User × Option Err) × σ
  GetAll : σ → Int → Int → (Option (List User) × Option Err) × σ
  Update : σ → User → Option Err × σ
  Delete : σ → Nat → Option Err × σ
  Count : σ → (Int × Option Err) × σ

/-- `CreateUser` (internal/usecase/user_usecase.go): validity gate, then the
best-effort existence pre-check by email (`if err == nil && existingUser
!= nil`), then `Create`. -/
def CreateUser {σ : Type} (r : UserRepository σ) (s : σ) (user : User) :
    Option Err × σ :=
  if !user.IsValid then
    (some Err.ErrInvalidUserName, s)
  else
    let ((existingUser, err), s1) := r.GetByEmail s user.Email
    if err.isNone && existingUser.isSome then
      (some Err.ErrUserAlreadyExists, s1)
    else
      r.Create s1 user

/-- `GetUser` (internal/usecase/user_usecase.go): zero-id sentinel check,
then `GetByID`; a `nil` user with `nil` error is mapped to `ErrUserNotFound`. -/
def GetUser {σ : Type} (r : UserRepository σ) (s : σ) (id : Nat) :
    (Option User × Option Err) × σ :=
  if id = 0 then
    ((none, some Err.ErrInvalidUserID), s)
  else
    let ((user, err), s1) := r.GetByID s id
    if err.isSome then
      ((none, err), s1)
    else if user.isNone then
      ((none, some Err.ErrUserNotFound), s1)
    else
      ((user, none), s1)

/-- `GetUserByEmail` (internal/usecase/user_usecase.go). -/
def GetUserByEmail {σ : Type} (r : UserRepository σ) (s : σ) (email : String) :
    (Option User × Option Err) × σ :=
  if email = "" then
    ((none, some Err.ErrInvalidUserEmail), s)
  else
    r.GetByEmail s email

/-- `GetAllUsers` (internal/usecase/user_usecase.go): normalizes `page` and
`pageSize`, computes the offset, then calls `GetAll` and `Count`.  Returns
`(users, total, error)`. -/
def GetAllUsers {σ : Type} (r : UserRepository σ) (s : σ) (page pageSize : Int) :
    (Option (List User) × Int × Option Err) × σ :=
  let page := if page < 1 then 1 else page
  let pageSize := if pageSize < 1 || pageSize > 100 then 10 else pageSize
  let offset := (page - 1) * pageSize
  let ((users, err), s1) := r.GetAll s pageSize offset
  match err with
  | some e => ((none, 0, some e), s1)
  | none =>
    let ((total, err2), s2) := r.Count s1
    match err2 with
    | some e => ((none, 0, some e), s2)
    | none => ((users, total, none), s2)

/-- `UpdateUser` (internal/usecase/user_usecase.go): zero-id sentinel, the
existence check by id, the validity gate, the conditional email-uniqueness
lookup (only when the email changed), forcing `user.ID = id`, then `Update`. -/
def UpdateUser {σ : Type} (r : UserRepository σ) (s : σ) (id : Nat) (user : User) :
    Option Err × σ :=
  if id = 0 then
    (some Err.ErrInvalidUserID, s)
  else
    let ((existingUser, err), s1) := r.GetByID s id
    if err.isSome then
      (err, s1)
    else
      match existingUser with
      | none => (some Err.ErrUserNotFound, s1)
      | some eu =>
        if !user.IsValid then
          (some Err.ErrInvalidUserName, s1)
        else if user.Email ≠ eu.Email then
          let ((emailUser, err2), s2) := r.GetByEmail s1 user.Email
          if err2.isNone && emailUser.any (fun e => e.ID != id) then
            (some Err.ErrEmailTaken, s2)
          else
            r.Update s2 { user with ID := id }
        else
          r.Update s1 { user with ID := id }

/-- `DeleteUser` (internal/usecase/user_usecase.go): zero-id sentinel, the
existence check, then `Delete`. -/
def DeleteUser {σ : Type} (r : UserRepository σ) (s : σ) (id : Nat) :
    Option Err × σ :=
  if id = 0 then
    (some Err.ErrInvalidUserID, s)
  else
    let ((user, err), s1) := r.GetByID s id
    if err.isSome then
      (err, s1)
    else if user.isNone then
      (some Err.ErrUserNotFound, s1)
    else
      r.Delete s1 id

/-- `ActivateUser` (internal/usecase/user_usecase.go): fetch via `GetUser`,
flip the flag, persist via `Update`.  The `none`-user / `none`-error branch
models the Go nil-pointer dereference `user.Activate()` would hit; it is
unreachable because `GetUser` never returns both a nil user and a nil error. -/
def ActivateUser {σ : Type} (r : UserRepository σ) (s : σ) (id : Nat) :
    Option Err × σ :=
  let ((user, err), s1) := GetUser r s id
  match err with
  | some e => (some e, s1)
  | none =>
    match user with
    | some u => r.Update s1 u.Activate
    | none => (some (Err.ErrOther "panic: nil user"), s1)

/-- `DeactivateUser` (internal/usecase/user_usecase.go): as `ActivateUser`
with the flag cleared. -/
def DeactivateUser {σ : Type} (r : UserRepository σ) (s : σ) (id : Nat) :
    Option Err × σ :=
  let ((user, err), s1) := GetUser r s id
  match err with
  | some e => (some e, s1)
  | none =>
    match user with
    | some u => r.Update s1 u.Deactivate
    | none => (some (Err.ErrOther "panic: nil user"), s1)

/-- An arbitrary pure repository: a fixed response for every call.  Used to
quantify over all possible repository behaviours in claims that hold for
every repository state. -/
structure PureRepo where
  CreateR : User → Option Err
  GetByIDR : Nat → Option User × Option Err
  GetByEmailR : String → Option User × Option Err
  GetAllR : Int → Int → Option (List User) × Option Err
  UpdateR : User → Option Err
  DeleteR : Nat → Option Err
  CountR : Int × Option Err

/-- Instrument a pure repository with a call trace: the state is the list of
repository calls made so far, appended in order. -/
def PureRepo.log (p : PureRepo) : UserRepository (List RepoCall) where
  Create s u := (p.CreateR u, s ++ [RepoCall.create u])
  GetByID s id := (p.GetByIDR id, s ++ [RepoCall.getByID id])
  GetByEmail s email := (p.GetByEmailR email, s ++ [RepoCall.getByEmail email])
  GetAll s limit offset := (p.GetAllR limit offset, s ++ [RepoCall.getAll limit offset])
  Update s u := (p.UpdateR u, s ++ [RepoCall.update u])
  Delete s id := (p.DeleteR id, s ++ [RepoCall.delete id])
  Count s := (p.CountR, s ++ [RepoCall.count])

/-- The fresh primary key the store assigns on insert: one more than the
largest id present (the serial column of the Postgres table). -/
def nextID (s : List User) : Nat :=
  (s.foldl (fun a v => max a v.ID) 0) + 1

/-- The store-backed repository (internal/repository/user_repository.go over
GORM/Postgres), modelled on a store that is the list of physical rows in
insertion order.  GORM's soft-delete default scope excludes rows whose
`DeletedAt` marker is set from `First`/`Find`/`Count` and from the `WHERE`
clause of updates and deletes; the email unique index is a physical index,
so it spans soft-deleted rows as well.  `GetAll` orders by creation time
descending, i.e. reverse insertion order.  A `Save`/`Delete` that matches
no row reports `RowsAffected == 0`, which the repository maps to
`ErrUserNotFound`; a duplicate-key violation is mapped to
`ErrUserAlreadyExists`.  `Create` runs the entity's `BeforeCreate` hook
(name/email non-empty) before inserting. -/
def storeRepo : UserRepository (List User) where
  Create s u :=
    if u.Name = "" then (some Err.ErrInvalidUserName, s)
    else if u.Email = "" then (some Err.ErrInvalidUserEmail, s)
    else if s.any (fun v => v.Email == u.Email) then (some Err.ErrUserAlreadyExists, s)
    else (none, s ++ [{ u with ID := nextID s, Deleted := false }])
  GetByID s id :=
    match s.find? (fun v => v.ID == id && !v.Deleted) with
    | some u => ((some u, none), s)
    | none => ((none, some Err.ErrUserNotFound), s)
  GetByEmail s email :=
    match s.find? (fun v => v.Email == email && !v.Deleted) with
    | some u => ((some u, none), s)
    | none => ((none, some Err.ErrUserNotFound), s)
  GetAll s limit offset :=
    ((some ((((s.filter (fun v => !v.Deleted)).reverse).drop offset.toNat).take limit.toNat),
      none), s)
  Update s u :=
    if (s.filter (fun v => v.ID == u.ID && !v.Deleted)).length = 0 then
      (some Err.ErrUserNotFound, s)
    else if s.any (fun v => v.ID != u.ID && v.Email == u.Email) then
      (some Err.ErrUserAlreadyExists, s)
    else
      (none, s.map (fun v => if v.ID == u.ID && !v.Deleted then u else v))
  Delete s id :=
    if (s.filter (fun v => v.ID == id && !v.Deleted)).length = 0 then
      (some Err.ErrUserNotFound, s)
    else
      (none, s.map (fun v => if v.ID == id && !v.Deleted then { v with Deleted := true } else v))
  Count s :=
    ((((s.filter (fun v => !v.Deleted)).length : Int), none), s)

/-- A repository double whose lookups all miss (`ErrUserNotFound`) and whose
writes all succeed: the behaviour over an empty store. -/
def trivialRepo : PureRepo where
  CreateR _ := none
  GetByIDR _ := (none, some Err.ErrUserNotFound)
  GetByEmailR _ := (none, some Err.ErrUserNotFound)
  GetAllR _ _ := (some [], none)
  UpdateR _ := none
  DeleteR _ := none
  CountR := (0, none)

/-- A repository double with a user `Ann` behind every id, email lookups
missing, and succeeding writes. -/
def sampleRepo : PureRepo where
  CreateR _ := none
  GetByIDR id := (some { ID := id, Name := "Ann", Email := "ann@x.com", Phone := "", Active := true, Deleted := false }, none)
  GetByEmailR _ := (none, some Err.ErrUserNotFound)
  GetAllR _ _ := (some [], none)
  UpdateR _ := none
  DeleteR _ := none
  CountR := (0, none)

/-- A repository double whose every call fails with a connectivity error,
except that `Create` succeeds. -/
def connRepo : PureRepo where
  CreateR _ := none
  GetByIDR _ := (none, some (Err.ErrOther "connection refused"))
  GetByEmailR _ := (none, some (Err.ErrOther "connection refused"))
  GetAllR _ _ := (none, some (Err.ErrOther "connection refused"))
  UpdateR _ := some (Err.ErrOther "connection refused")
  DeleteR _ := some (Err.ErrOther "connection refused")
  CountR := (0, some (Err.ErrOther "connection refused"))

/-- A repository double that answers every `GetByID` with a nil user and a
nil error at once (a misbehaving implementation the use-case must guard
against). -/
def nilRepo : PureRepo where
  CreateR _ := none
  GetByIDR _ := (none, none)
  GetByEmailR _ := (none, none)
  GetAllR _ _ := (some [], none)
  UpdateR _ := none
  DeleteR _ := none
  CountR := (0, none)

/-- Ann, not yet persisted. -/
def annNew : User :=
  { ID := 0, Name := "Ann", Email := "ann@x.com", Phone := "", Active := true,
    Deleted := false }

/-! ## Claims about the use-case over an arbitrary repository -/

/-- C7: for the sentinel id zero, `GetUser 0`, `UpdateUser 0 u` for every
`u`, and `DeleteUser 0` all fail with `ErrInvalidUserID` and make no
repository call (the call trace stays empty), whatever the repository. -/
theorem zero_id_sentinel (p : PureRepo) (u : User) :
    GetUser p.log [] 0 = ((none, some Err.ErrInvalidUserID), [])
    ∧ UpdateUser p.log [] 0 u = (some Err.ErrInvalidUserID, [])
    ∧ DeleteUser p.log [] 0 = (some Err.ErrInvalidUserID, []) := by
  refine ⟨?_, ?_, ?_⟩ <;> simp [GetUser, UpdateUser, DeleteUser]

/-- C3: `GetAllUsers` normalizes its arguments before any repository call:
`page < 1` behaves as `page = 1`; `pageSize < 1` or `pageSize > 100`
behaves as `pageSize = 10`; the first (and only) `GetAll` call carries
`limit = pageSize` and `offset = (page - 1) * pageSize`; and the two
concrete equalities `GetAllUsers 0 0 = GetAllUsers 1 10` and
`GetAllUsers 1 500 = GetAllUsers 1 10` hold. -/
theorem getAllUsers_normalization (p : PureRepo) (page pageSize : Int) :
    (page < 1 → GetAllUsers p.log [] page pageSize = GetAllUsers p.log [] 1 pageSize)
    ∧ (pageSize < 1 ∨ 100 < pageSize →
        GetAllUsers p.log [] page pageSize = GetAllUsers p.log [] page 10)
    ∧ (1 ≤ page → 1 ≤ pageSize → pageSize ≤ 100 →
        (GetAllUsers p.log [] page pageSize).2.head? =
          some (RepoCall.getAll pageSize ((page - 1) * pageSize)))
    ∧ GetAllUsers p.log [] 0 0 = GetAllUsers p.log [] 1 10
    ∧ GetAllUsers p.log [] 1 500 = GetAllUsers p.log [] 1 10 := by
  refine ⟨?_, ?_, ?_, ?_, ?_⟩
  · intro h
    have h1 : ¬ ((1 : Int) < 1) := by omega
    simp only [GetAllUsers, if_pos h, if_neg h1]
  · intro h
    have hb : (pageSize < 1 || pageSize > 100) = true := by
      rcases h with h | h <;> simp [h]
    have hb10 : ((10 : Int) < 1 || (10 : Int) > 100) = false := by decide
    simp only [GetAllUsers, hb, hb10, if_true, if_false, Bool.false_eq_true]
  · intro h1 h2 h3
    have hp : ¬ (page < 1) := by omega
    have hb : (pageSize < 1 || pageSize > 100) = false := by
      simp only [Bool.or_eq_false_iff, decide_eq_false_iff_not]
      omega
    simp only [GetAllUsers, if_neg hp, hb, Bool.false_eq_true, if_false,
      PureRepo.log]
    rcases hg : p.GetAllR pageSize ((page - 1) * pageSize) with ⟨ou, oe⟩
    rcases oe with _ | e
    · rcases p.CountR with ⟨t, ote⟩
      rcases ote with _ | e2 <;> simp
    · simp
  · rfl
  · rfl

/-- C10: `GetUser` never returns both a nil user and a nil error: whenever
it completes without an error the returned user is present, and a
nil-user/nil-error repository response is mapped to `ErrUserNotFound`. -/
theorem getUser_never_nil_nil (p : PureRepo) (s : List RepoCall) (id : Nat) :
    ((GetUser p.log s id).1.2 = none → (GetUser p.log s id).1.1.isSome)
    ∧ (id ≠ 0 → p.GetByIDR id = (none, none) →
        (GetUser p.log s id).1 = (none, some Err.ErrUserNotFound)) := by
  constructor
  · intro h
    by_cases h0 : id = 0
    · simp [GetUser, h0] at h
    · rcases hg : p.GetByIDR id with ⟨ou, oe⟩
      rcases oe with _ | e
      · rcases ou with _ | u
        · simp [GetUser, h0, PureRepo.log, hg] at h
        · simp [GetUser, h0, PureRepo.log, hg]
      · simp [GetUser, h0, PureRepo.log, hg] at h
  · intro h0 hg
    simp [GetUser, h0, PureRepo.log, hg]

/-- C10 witness: at id 1 over `sampleRepo` the error is nil and the user is
present; over `nilRepo`, whose `GetByID` answers nil-user/nil-error, the
result is `ErrUserNotFound`. -/
theorem getUser_never_nil_nil_witness :
    (GetUser sampleRepo.log [] 1).1.1.isSome
    ∧ (GetUser nilRepo.log [] 1).1 = (none, some Err.ErrUserNotFound) :=
  ⟨(getUser_never_nil_nil sampleRepo [] 1).1 (by decide),
   (getUser_never_nil_nil nilRepo [] 1).2 (by decide) rfl⟩

/-- C4: in `UpdateUser` the existence check precedes the validity check:
for every nonzero id whose lookup reports no record (either the
repository's `ErrUserNotFound` or a nil-user/nil-error response),
`UpdateUser` fails with `ErrUserNotFound` for every submitted user,
including invalid ones, after exactly the one `GetByID` call; by contrast
`CreateUser` rejects an invalid user before any repository call. -/
theorem updateUser_notFound_before_validity (p : PureRepo) (id : Nat) (u : User)
    (hid : id ≠ 0)
    (h : p.GetByIDR id = (none, some Err.ErrUserNotFound)
      ∨ p.GetByIDR id = (none, none)) :
    UpdateUser p.log [] id u = (some Err.ErrUserNotFound, [RepoCall.getByID id])
    ∧ (¬ u.IsValid → CreateUser p.log [] u = (some Err.ErrInvalidUserName, [])) := by
  constructor
  · rcases h with h | h <;> simp [UpdateUser, hid, PureRepo.log, h]
  · intro hv
    simp only [Bool.not_eq_true] at hv
    simp [CreateUser, hv]

/-- C4 witness: id 1 over `trivialRepo` (every lookup misses) with an
invalid submitted user. -/
theorem updateUser_notFound_before_validity_witness :
    UpdateUser trivialRepo.log [] 1 { annNew with Name := "" }
      = (some Err.ErrUserNotFound, [RepoCall.getByID 1])
    ∧ (¬ ({ annNew with Name := "" } : User).IsValid →
        CreateUser trivialRepo.log [] { annNew with Name := "" }
          = (some Err.ErrInvalidUserName, [])) :=
  updateUser_notFound_before_validity trivialRepo 1 { annNew with Name := "" }
    (by decide) (Or.inl rfl)

/-- C6: `UpdateUser` pins the identifier: every record passed to the
repository `Update` during `UpdateUser id u` has `ID = id`, whatever id the
submitted user carried. -/
theorem updateUser_id_pinned (p : PureRepo) (id : Nat) (u v : User)
    (hmem : RepoCall.update v ∈ (UpdateUser p.log [] id u).2) :
    v.ID = id := by
  by_cases h0 : id = 0
  · simp [UpdateUser, h0] at hmem
  · rcases hg : p.GetByIDR id with ⟨ou, oe⟩
    rcases oe with _ | e
    · rcases ou with _ | eu
      · simp [UpdateUser, h0, PureRepo.log, hg] at hmem
      · by_cases hv : u.IsValid
        · by_cases he : u.Email = eu.Email
          · simp [UpdateUser, h0, PureRepo.log, hg, hv, he] at hmem
            subst hmem
            rfl
          · rcases hq : p.GetByEmailR u.Email with ⟨oeu, oee⟩
            by_cases ht : oee.isNone && oeu.any (fun e => e.ID != id)
            · simp [UpdateUser, h0, PureRepo.log, hg, hv, he, hq, ht] at hmem
            · simp [UpdateUser, h0, PureRepo.log, hg, hv, he, hq, ht] at hmem
              subst hmem
              rfl
        · simp [UpdateUser, h0, PureRepo.log, hg, hv] at hmem
    · simp [UpdateUser, h0, PureRepo.log, hg] at hmem

/-- C6 witness: `UpdateUser 5` over `sampleRepo` with a submitted user
carrying id 999 persists a record whose id is 5. -/
theorem updateUser_id_pinned_witness :
    ({ annNew with ID := 5, Name := "B2" } : User).ID = 5 :=
  updateUser_id_pinned sampleRepo 5 { annNew with ID := 999, Name := "B2" }
    { annNew with ID := 5, Name := "B2" } (by decide)

/-- C3 witness: concrete normalizations over `trivialRepo`. -/
theorem getAllUsers_normalization_witness :
    GetAllUsers trivialRepo.log [] 0 5 = GetAllUsers trivialRepo.log [] 1 5
    ∧ GetAllUsers trivialRepo.log [] 2 500 = GetAllUsers trivialRepo.log [] 2 10
    ∧ (GetAllUsers trivialRepo.log [] 3 20).2.head?
        = some (RepoCall.getAll 20 ((3 - 1) * 20)) :=
  ⟨(getAllUsers_normalization trivialRepo 0 5).1 (by decide),
   (getAllUsers_normalization trivialRepo 2 500).2.1 (Or.inr (by decide)),
   (getAllUsers_normalization trivialRepo 3 20).2.2.1 (by decide) (by decide)
     (by decide)⟩

/-- C1 counterexample: a user with non-empty name and empty email is
rejected by `CreateUser` with `ErrInvalidUserName`, not
`ErrInvalidUserEmail`; and `UpdateUser` on an invalid user performs the
`GetByID` persistence call before failing, so its trace is non-empty. -/
theorem invalid_kind_cex :
    CreateUser trivialRepo.log [] { annNew with Email := "" }
      = (some Err.ErrInvalidUserName, [])
    ∧ Err.ErrInvalidUserName ≠ Err.ErrInvalidUserEmail
    ∧ UpdateUser sampleRepo.log [] 1 { annNew with Email := "" }
      = (some Err.ErrInvalidUserName, [RepoCall.getByID 1])
    ∧ ([RepoCall.getByID 1] : List RepoCall) ≠ [] :=
  ⟨by decide, by decide, by decide, by decide⟩

/-- C1 amended: for every user with empty name or empty email, `CreateUser`
fails with the single kind `ErrInvalidUserName` (whichever field is empty)
before any repository call, and `UpdateUser` — once its existence lookup
has found a record — fails with the same `ErrInvalidUserName` kind, its
only prior persistence call being that lookup. -/
theorem invalid_kind_amended (p : PureRepo) (u : User) (id : Nat) (eu : User)
    (hinv : u.Name = "" ∨ u.Email = "") :
    CreateUser p.log [] u = (some Err.ErrInvalidUserName, [])
    ∧ (id ≠ 0 → p.GetByIDR id = (some eu, none) →
        UpdateUser p.log [] id u
          = (some Err.ErrInvalidUserName, [RepoCall.getByID id])) := by
  have hv : u.IsValid = false := by
    rcases hinv with h | h <;> simp [User.IsValid, h]
  constructor
  · simp [CreateUser, hv]
  · intro h0 hg
    simp [UpdateUser, h0, PureRepo.log, hg, hv]

/-- C1 amended witness: the empty-email user over `sampleRepo`. -/
theorem invalid_kind_amended_witness :
    CreateUser sampleRepo.log [] { annNew with Email := "" }
      = (some Err.ErrInvalidUserName, [])
    ∧ UpdateUser sampleRepo.log [] 1 { annNew with Email := "" }
      = (some Err.ErrInvalidUserName, [RepoCall.getByID 1]) := by
  have h := invalid_kind_amended sampleRepo { annNew with Email := "" } 1
    { ID := 1, Name := "Ann", Email := "ann@x.com", Phone := "", Active := true,
      Deleted := false } (Or.inr rfl)
  exact ⟨h.1, h.2 (by decide) rfl⟩

/-- C2 counterexample: when the pre-check lookup fails with a connectivity
error, `CreateUser` does not propagate it (the result is `Create`'s
successful `nil`) and it does proceed to call `Create`. -/
theorem create_swallow_cex :
    (CreateUser connRepo.log [] annNew).1 = none
    ∧ (CreateUser connRepo.log [] annNew).1
        ≠ some (Err.ErrOther "connection refused")
    ∧ RepoCall.create annNew ∈ (CreateUser connRepo.log [] annNew).2 :=
  ⟨rfl, by decide, by decide⟩

/-- C2 amended: whenever the pre-check lookup by email returns any error
(a connectivity failure included), `CreateUser` ignores that error, skips
the `AlreadyExists` branch, and proceeds to call `Create`, returning
`Create`'s own result. -/
theorem create_precheck_error_ignored (p : PureRepo) (u : User)
    (ou : Option User) (e : Err)
    (hvalid : u.IsValid) (herr : p.GetByEmailR u.Email = (ou, some e)) :
    CreateUser p.log [] u
      = (p.CreateR u, [RepoCall.getByEmail u.Email, RepoCall.create u]) := by
  simp [CreateUser, hvalid, PureRepo.log, herr]

/-- C2 amended witness: `connRepo`'s lookup fails with a connectivity
error, yet `CreateUser` calls `Create` and returns its result. -/
theorem create_precheck_error_ignored_witness :
    CreateUser connRepo.log [] annNew
      = (connRepo.CreateR annNew,
         [RepoCall.getByEmail annNew.Email, RepoCall.create annNew]) :=
  create_precheck_error_ignored connRepo annNew none
    (Err.ErrOther "connection refused") (by decide) rfl

/-- A repository double realizing E2E scenario D: `GetByID` finds Bob
(`bob@x.com`) behind every id, while every email is already owned by the
user with id 1. -/
def dupRepo : PureRepo where
  CreateR _ := none
  GetByIDR id := (some { ID := id, Name := "Bob", Email := "bob@x.com", Phone := "", Active := true, Deleted := false }, none)
  GetByEmailR email := (some { ID := 1, Name := "Ann", Email := email, Phone := "", Active := true, Deleted := false }, none)
  GetAllR _ _ := (some [], none)
  UpdateR _ := none
  DeleteR _ := none
  CountR := (0, none)

/-- C5: for an existing user at `id` and a valid submitted user, an
unchanged email skips the uniqueness lookup entirely (the trace holds no
`getByEmail` call), while a changed email already owned by a user with a
different id fails with the distinct `ErrEmailTaken` condition — which is
not the generic `ErrUserAlreadyExists` kind. -/
theorem updateUser_email_uniqueness (p : PureRepo) (id : Nat) (u eu other : User)
    (hid : id ≠ 0) (hget : p.GetByIDR id = (some eu, none))
    (hvalid : u.IsValid) :
    (u.Email = eu.Email →
      UpdateUser p.log [] id u
        = (p.UpdateR { u with ID := id },
           [RepoCall.getByID id, RepoCall.update { u with ID := id }]))
    ∧ (u.Email ≠ eu.Email → p.GetByEmailR u.Email = (some other, none) →
        other.ID ≠ id →
        UpdateUser p.log [] id u
          = (some Err.ErrEmailTaken,
             [RepoCall.getByID id, RepoCall.getByEmail u.Email]))
    ∧ Err.ErrEmailTaken ≠ Err.ErrUserAlreadyExists := by
  refine ⟨?_, ?_, by decide⟩
  · intro he
    simp [UpdateUser, hid, PureRepo.log, hget, hvalid, he]
  · intro he hq hother
    simp [UpdateUser, hid, PureRepo.log, hget, hvalid, he, hq, hother]

/-- C5 witness: scenario D — updating user 2 to Ann's email fails
`ErrEmailTaken`; updating with an unchanged email skips the lookup. -/
theorem updateUser_email_uniqueness_witness :
    UpdateUser sampleRepo.log [] 1 { annNew with Name := "A2" }
      = (sampleRepo.UpdateR { annNew with Name := "A2", ID := 1 },
         [RepoCall.getByID 1,
          RepoCall.update { annNew with Name := "A2", ID := 1 }])
    ∧ UpdateUser dupRepo.log [] 2 { annNew with Name := "B2" }
      = (some Err.ErrEmailTaken,
         [RepoCall.getByID 2, RepoCall.getByEmail annNew.Email]) := by
  constructor
  · exact (updateUser_email_uniqueness sampleRepo 1 { annNew with Name := "A2" }
      { ID := 1, Name := "Ann", Email := "ann@x.com", Phone := "", Active := true,
        Deleted := false } annNew (by decide) rfl (by decide)).1 rfl
  · exact (updateUser_email_uniqueness dupRepo 2 { annNew with Name := "B2" }
      { ID := 2, Name := "Bob", Email := "bob@x.com", Phone := "", Active := true,
        Deleted := false }
      { ID := 1, Name := "Ann", Email := "ann@x.com", Phone := "", Active := true,
        Deleted := false } (by decide) rfl (by decide)).2.1 (by decide) rfl
      (by decide)

/-! ## Claims about the use-case over the store-backed repository

The store is the list of physical rows; the primary-key invariant (no two
rows share an id) is the standing hypothesis `(s.map User.ID).Nodup`. -/

/-- Splitting a count along a discriminating predicate. -/
theorem countP_and_split {α : Type} (l : List α) (p q : α → Bool) :
    l.countP q = l.countP (fun a => p a && q a) + l.countP (fun a => !p a && q a) := by
  induction l with
  | nil => simp
  | cons a t ih =>
    cases hp : p a <;> cases hq : q a <;>
      simp [List.countP_cons, hp, hq, ih] <;> omega

/-- Counts agree for predicates that agree on the list's elements. -/
theorem countP_congr_mem {α : Type} (l : List α) (p q : α → Bool)
    (h : ∀ a ∈ l, p a = q a) :
    l.countP p = l.countP q := by
  induction l with
  | nil => rfl
  | cons a t ih =>
    have ha := h a (List.mem_cons_self a t)
    simp [List.countP_cons, ha,
      ih (fun x hx => h x (List.mem_cons_of_mem a hx))]

/-- Maps agree for functions that agree on the list's elements. -/
theorem map_congr_mem {α β : Type} (l : List α) (f g : α → β)
    (h : ∀ a ∈ l, f a = g a) :
    l.map f = l.map g := by
  induction l with
  | nil => rfl
  | cons a t ih =>
    simp [h a (List.mem_cons_self a t),
      ih (fun x hx => h x (List.mem_cons_of_mem a hx))]

/-- A map by a function fixing every element of the list is the identity. -/
theorem map_id_of_mem {α : Type} (l : List α) (f : α → α)
    (h : ∀ a ∈ l, f a = a) : l.map f = l := by
  induction l with
  | nil => rfl
  | cons a t ih =>
    simp [h a (List.mem_cons_self a t),
      ih (fun x hx => h x (List.mem_cons_of_mem a hx))]

/-- Under the primary-key invariant, a store holding the non-deleted row `u`
with id `id` holds exactly one non-deleted row with that id. -/
theorem countP_activeID_of_nodup (s : List User) (u : User) (id : Nat)
    (hnd : (s.map User.ID).Nodup) (hmem : u ∈ s) (hid : u.ID = id)
    (hdel : u.Deleted = false) :
    s.countP (fun v => v.ID == id && !v.Deleted) = 1 := by
  induction s with
  | nil => cases hmem
  | cons a t ih =>
    simp only [List.map_cons, List.nodup_cons] at hnd
    obtain ⟨ha, hnd'⟩ := hnd
    rcases List.mem_cons.mp hmem with rfl | hmem'
    · have hz : t.countP (fun v => v.ID == id && !v.Deleted) = 0 := by
        apply List.countP_eq_zero.mpr
        intro v hv hc
        have hs : v.ID = id ∧ v.Deleted = false := by simpa using hc
        exact ha (List.mem_map.mpr ⟨v, hv, by rw [hs.1, hid]⟩)
      simp [List.countP_cons, hz, hid, hdel]
    · have hne : a.ID ≠ id := by
        intro h
        exact ha (List.mem_map.mpr ⟨u, hmem', by rw [hid, ← h]⟩)
      simp [List.countP_cons, hne]
      exact ih hnd' hmem'

/-- Under the primary-key invariant, `find?` for the non-deleted row with
id `id` returns exactly the row `u`. -/
theorem find_activeID_of_nodup (s : List User) (u : User) (id : Nat)
    (hnd : (s.map User.ID).Nodup) (hmem : u ∈ s) (hid : u.ID = id)
    (hdel : u.Deleted = false) :
    s.find? (fun v => v.ID == id && !v.Deleted) = some u := by
  induction s with
  | nil => cases hmem
  | cons a t ih =>
    simp only [List.map_cons, List.nodup_cons] at hnd
    obtain ⟨ha, hnd'⟩ := hnd
    rcases List.mem_cons.mp hmem with rfl | hmem'
    · have hp : (u.ID == id && !u.Deleted) = true := by simp [hid, hdel]
      rw [List.find?_cons_of_pos t hp]
    · have hne : a.ID ≠ id := by
        intro h
        exact ha (List.mem_map.mpr ⟨u, hmem', by rw [hid, ← h]⟩)
      rw [List.find?_cons_of_neg t (by simp [hne])]
      exact ih hnd' hmem'

/-- `storeRepo.GetByID` finds the unique non-deleted row with the id. -/
theorem storeRepo_getByID_found (s : List User) (u : User) (id : Nat)
    (hnd : (s.map User.ID).Nodup) (hmem : u ∈ s) (hid : u.ID = id)
    (hdel : u.Deleted = false) :
    storeRepo.GetByID s id = ((some u, none), s) := by
  have h := find_activeID_of_nodup s u id hnd hmem hid hdel
  simp only [storeRepo, h]

/-- `storeRepo.GetByID` misses when no non-deleted row has the id. -/
theorem storeRepo_getByID_missing (s : List User) (id : Nat)
    (h : s.find? (fun v => v.ID == id && !v.Deleted) = none) :
    storeRepo.GetByID s id = ((none, some Err.ErrUserNotFound), s) := by
  simp only [storeRepo, h]

/-- `GetUser` over the store fails with `ErrUserNotFound` when no
non-deleted row has the id. -/
theorem getUser_store_missing (s : List User) (id : Nat) (hpos : id ≠ 0)
    (h : s.find? (fun v => v.ID == id && !v.Deleted) = none) :
    GetUser storeRepo s id = ((none, some Err.ErrUserNotFound), s) := by
  simp [GetUser, hpos, storeRepo_getByID_missing s id h]

/-- `GetUser` over the store succeeds on the unique non-deleted row. -/
theorem getUser_store_found (s : List User) (u : User) (id : Nat)
    (hnd : (s.map User.ID).Nodup) (hmem : u ∈ s) (hid : u.ID = id)
    (hdel : u.Deleted = false) (hpos : id ≠ 0) :
    GetUser storeRepo s id = ((some u, none), s) := by
  simp [GetUser, hpos, storeRepo_getByID_found s u id hnd hmem hid hdel]

/-- `storeRepo.Delete` on a store holding exactly one matching non-deleted
row succeeds and flips that row's soft-delete marker. -/
theorem storeRepo_delete_eq (s : List User) (id : Nat)
    (hc : s.countP (fun v => v.ID == id && !v.Deleted) = 1) :
    storeRepo.Delete s id
      = (none, s.map (fun v =>
          if v.ID == id && !v.Deleted then { v with Deleted := true } else v)) := by
  have hlen : (s.filter (fun v => v.ID == id && !v.Deleted)).length = 1 := by
    rw [← List.countP_eq_length_filter]
    exact hc
  simp only [storeRepo, hlen]
  simp

/-- `DeleteUser` over the store succeeds and flips the soft-delete marker
of the matching non-deleted row, leaving everything else in place. -/
theorem deleteUser_store_eq (s : List User) (u : User) (id : Nat)
    (hnd : (s.map User.ID).Nodup) (hmem : u ∈ s) (hid : u.ID = id)
    (hdel : u.Deleted = false) (hpos : id ≠ 0) :
    DeleteUser storeRepo s id
      = (none, s.map (fun v =>
          if v.ID == id && !v.Deleted then { v with Deleted := true } else v)) := by
  have h1 := storeRepo_getByID_found s u id hnd hmem hid hdel
  have h2 := storeRepo_delete_eq s id
    (countP_activeID_of_nodup s u id hnd hmem hid hdel)
  simp [DeleteUser, hpos, h1, h2]

/-- After the soft delete, no non-deleted row with the id remains. -/
theorem find_none_after_delete (s : List User) (id : Nat) :
    (s.map (fun v =>
        if v.ID == id && !v.Deleted then { v with Deleted := true } else v)).find?
      (fun v => v.ID == id && !v.Deleted) = none := by
  apply List.find?_eq_none.mpr
  intro x hx
  rcases List.mem_map.mp hx with ⟨w, hw, rfl⟩
  by_cases h : (w.ID == id && !w.Deleted) = true
  · rw [if_pos h]
    simp
  · rw [if_neg h]
    exact fun hc => h hc

/-- The soft delete removes exactly one row from the non-deleted count. -/
theorem count_after_delete (s : List User) (id : Nat)
    (h1 : s.countP (fun v => v.ID == id && !v.Deleted) = 1) :
    ((s.map (fun v =>
        if v.ID == id && !v.Deleted then { v with Deleted := true } else v)).countP
      (fun v => !v.Deleted)) + 1
      = s.countP (fun v => !v.Deleted) := by
  rw [List.countP_map]
  have hpt := countP_congr_mem s
    ((fun v => !v.Deleted) ∘ (fun v =>
      if v.ID == id && !v.Deleted then { v with Deleted := true } else v))
    (fun v => !(v.ID == id && !v.Deleted) && !v.Deleted)
    (by
      intro v hv
      by_cases h : (v.ID == id && !v.Deleted) = true
      · simp [Function.comp, h]
      · simp only [Function.comp, if_neg h]
        simp [Bool.eq_false_iff.mpr h])
  rw [hpt]
  have hsplit := countP_and_split s (fun v => v.ID == id && !v.Deleted)
    (fun v => !v.Deleted)
  have heq := countP_congr_mem s
    (fun v => (v.ID == id && !v.Deleted) && !v.Deleted)
    (fun v => v.ID == id && !v.Deleted)
    (by
      intro v hv
      cases hdv : v.Deleted <;> cases hiv : v.ID == id <;> simp [hdv, hiv])
  rw [heq] at hsplit
  omega

/-- C8: for every store satisfying the primary-key invariant and containing
a non-deleted user `u` with nonzero id, `DeleteUser id` succeeds, after it
`GetUser id` fails with `ErrUserNotFound`, the repository `Count` drops by
exactly one, and the record is soft-deleted rather than removed: the store
keeps its length and still contains the row, now marked deleted. -/
theorem delete_soft_delete (s : List User) (u : User) (id : Nat)
    (hnd : (s.map User.ID).Nodup) (hmem : u ∈ s) (hid : u.ID = id)
    (hdel : u.Deleted = false) (hpos : id ≠ 0) :
    (DeleteUser storeRepo s id).1 = none
    ∧ (GetUser storeRepo (DeleteUser storeRepo s id).2 id).1
        = (none, some Err.ErrUserNotFound)
    ∧ (storeRepo.Count (DeleteUser storeRepo s id).2).1.1 + 1
        = (storeRepo.Count s).1.1
    ∧ (DeleteUser storeRepo s id).2.length = s.length
    ∧ { u with Deleted := true } ∈ (DeleteUser storeRepo s id).2 := by
  have hD := deleteUser_store_eq s u id hnd hmem hid hdel hpos
  rw [hD]
  refine ⟨rfl, ?_, ?_, by simp, ?_⟩
  · rw [getUser_store_missing _ id hpos (find_none_after_delete s id)]
  · have hcount := count_after_delete s id
      (countP_activeID_of_nodup s u id hnd hmem hid hdel)
    simp only [storeRepo]
    rw [← List.countP_eq_length_filter, ← List.countP_eq_length_filter]
    exact_mod_cast hcount
  · exact List.mem_map.mpr ⟨u, hmem, by simp [hid, hdel]⟩

/-- Ann as the persisted row with id 1. -/
def annStored : User := { annNew with ID := 1 }

/-- C8 witness: the one-row store holding Ann. -/
theorem delete_soft_delete_witness :
    (DeleteUser storeRepo [annStored] 1).1 = none
    ∧ (GetUser storeRepo (DeleteUser storeRepo [annStored] 1).2 1).1
        = (none, some Err.ErrUserNotFound)
    ∧ (storeRepo.Count (DeleteUser storeRepo [annStored] 1).2).1.1 + 1
        = (storeRepo.Count [annStored]).1.1
    ∧ (DeleteUser storeRepo [annStored] 1).2.length = [annStored].length
    ∧ { annStored with Deleted := true } ∈ (DeleteUser storeRepo [annStored] 1).2 :=
  delete_soft_delete [annStored] annStored 1 (by decide) (by decide) rfl rfl
    (by decide)

/-- `storeRepo.Update` with a record `w` that keeps the id and email of the
unique non-deleted row `u` succeeds (one row matches, and no other physical
row can trip the email unique index) and replaces that row by `w`. -/
theorem storeRepo_update_eq (s : List User) (u w : User) (id : Nat)
    (hnd : (s.map User.ID).Nodup) (hmem : u ∈ s) (hid : u.ID = id)
    (hdel : u.Deleted = false)
    (hwid : w.ID = id) (hwdel : w.Deleted = false) (hwe : w.Email = u.Email)
    (hemail : ∀ v ∈ s, v.Email = u.Email → v.ID = id) :
    storeRepo.Update s w
      = (none, s.map (fun v => if v.ID == id && !v.Deleted then w else v)) := by
  have hlen : (s.filter (fun v => v.ID == w.ID && !v.Deleted)).length = 1 := by
    rw [← List.countP_eq_length_filter, hwid]
    exact countP_activeID_of_nodup s u id hnd hmem hid hdel
  have hdup : s.any (fun v => v.ID != w.ID && v.Email == w.Email) = false := by
    apply List.any_eq_false.mpr
    intro v hv hc
    have hs : v.ID ≠ w.ID ∧ v.Email = w.Email := by simpa using hc
    exact hs.1 (by rw [hemail v hv (hs.2.trans hwe), hwid])
  simp only [storeRepo, hlen, hdup]
  simp [hwid]

/-- Replacing the unique matching row preserves the row ids, keeps the
replacement in the store, keeps the email hypothesis, and leaves the
replacement as the only row matching the id. -/
theorem replace_facts (s : List User) (u w : User) (id : Nat)
    (hnd : (s.map User.ID).Nodup) (hmem : u ∈ s) (hid : u.ID = id)
    (hdel : u.Deleted = false)
    (hwid : w.ID = id) (hwdel : w.Deleted = false) (hwe : w.Email = u.Email)
    (hemail : ∀ v ∈ s, v.Email = u.Email → v.ID = id) :
    (((s.map (fun v => if v.ID == id && !v.Deleted then w else v)).map User.ID).Nodup)
    ∧ w ∈ s.map (fun v => if v.ID == id && !v.Deleted then w else v)
    ∧ (∀ v ∈ s.map (fun v => if v.ID == id && !v.Deleted then w else v),
        v.Email = w.Email → v.ID = id)
    ∧ (∀ v ∈ s.map (fun v => if v.ID == id && !v.Deleted then w else v),
        (v.ID == id && !v.Deleted) = true → v = w) := by
  refine ⟨?_, ?_, ?_, ?_⟩
  · have hids : (s.map (fun v => if v.ID == id && !v.Deleted then w else v)).map User.ID
        = s.map User.ID := by
      rw [List.map_map]
      apply map_congr_mem
      intro v hv
      by_cases h : (v.ID == id && !v.Deleted) = true
      · have hs : v.ID = id ∧ v.Deleted = false := by simpa using h
        simp [Function.comp, h, hwid, hs.1, hs.2]
      · simp [Function.comp, h]
    rw [hids]
    exact hnd
  · exact List.mem_map.mpr ⟨u, hmem, by simp [hid, hdel]⟩
  · intro v hv hve
    rcases List.mem_map.mp hv with ⟨x, hx, rfl⟩
    by_cases h : (x.ID == id && !x.Deleted) = true
    · rw [if_pos h]
      exact hwid
    · rw [if_neg h] at hve ⊢
      exact hemail x hx (hve.trans hwe)
  · intro v hv hvp
    rcases List.mem_map.mp hv with ⟨x, hx, rfl⟩
    by_cases h : (x.ID == id && !x.Deleted) = true
    · rw [if_pos h]
    · rw [if_neg h] at hvp ⊢
      exact absurd hvp h

/-- `ActivateUser` over the store succeeds and replaces the unique matching
row by its activated copy. -/
theorem activateUser_store_eq (s : List User) (u : User) (id : Nat)
    (hnd : (s.map User.ID).Nodup) (hmem : u ∈ s) (hid : u.ID = id)
    (hdel : u.Deleted = false) (hpos : id ≠ 0)
    (hemail : ∀ v ∈ s, v.Email = u.Email → v.ID = id) :
    ActivateUser storeRepo s id
      = (none, s.map (fun v =>
          if v.ID == id && !v.Deleted then u.Activate else v)) := by
  have hg := getUser_store_found s u id hnd hmem hid hdel hpos
  have hu := storeRepo_update_eq s u u.Activate id hnd hmem hid hdel
    (by simp [User.Activate, hid]) (by simp [User.Activate, hdel])
    (by simp [User.Activate]) hemail
  simp [ActivateUser, hg, hu]

/-- `DeactivateUser` over the store succeeds and replaces the unique
matching row by its deactivated copy. -/
theorem deactivateUser_store_eq (s : List User) (u : User) (id : Nat)
    (hnd : (s.map User.ID).Nodup) (hmem : u ∈ s) (hid : u.ID = id)
    (hdel : u.Deleted = false) (hpos : id ≠ 0)
    (hemail : ∀ v ∈ s, v.Email = u.Email → v.ID = id) :
    DeactivateUser storeRepo s id
      = (none, s.map (fun v =>
          if v.ID == id && !v.Deleted then u.Deactivate else v)) := by
  have hg := getUser_store_found s u id hnd hmem hid hdel hpos
  have hu := storeRepo_update_eq s u u.Deactivate id hnd hmem hid hdel
    (by simp [User.Deactivate, hid]) (by simp [User.Deactivate, hdel])
    (by simp [User.Deactivate]) hemail
  simp [DeactivateUser, hg, hu]

/-- A second `ActivateUser` is a no-op on the store: it succeeds and leaves
the state exactly where the first call put it. -/
theorem activateUser_store_twice (s : List User) (u : User) (id : Nat)
    (hnd : (s.map User.ID).Nodup) (hmem : u ∈ s) (hid : u.ID = id)
    (hdel : u.Deleted = false) (hpos : id ≠ 0)
    (hemail : ∀ v ∈ s, v.Email = u.Email → v.ID = id) :
    ActivateUser storeRepo (ActivateUser storeRepo s id).2 id
      = (none, (ActivateUser storeRepo s id).2) := by
  rw [activateUser_store_eq s u id hnd hmem hid hdel hpos hemail]
  show ActivateUser storeRepo
      (s.map (fun v => if v.ID == id && !v.Deleted then u.Activate else v)) id
    = (none, s.map (fun v => if v.ID == id && !v.Deleted then u.Activate else v))
  obtain ⟨hnd2, hmem2, hemail2, hrows⟩ :=
    replace_facts s u u.Activate id hnd hmem hid hdel
      (by simp [User.Activate, hid]) (by simp [User.Activate, hdel])
      (by simp [User.Activate]) hemail
  rw [activateUser_store_eq
    (s.map (fun v => if v.ID == id && !v.Deleted then u.Activate else v))
    u.Activate id hnd2 hmem2 (by simp [User.Activate, hid])
    (by simp [User.Activate, hdel]) hpos hemail2]
  have hmap : (s.map (fun v => if v.ID == id && !v.Deleted then u.Activate else v)).map
      (fun v => if v.ID == id && !v.Deleted then u.Activate.Activate else v)
    = s.map (fun v => if v.ID == id && !v.Deleted then u.Activate else v) := by
    apply map_id_of_mem
    intro v hv
    by_cases hp : (v.ID == id && !v.Deleted) = true
    · rw [if_pos hp, hrows v hv hp]
      rfl
    · rw [if_neg hp]
  rw [hmap]

/-- A second `DeactivateUser` is a no-op on the store. -/
theorem deactivateUser_store_twice (s : List User) (u : User) (id : Nat)
    (hnd : (s.map User.ID).Nodup) (hmem : u ∈ s) (hid : u.ID = id)
    (hdel : u.Deleted = false) (hpos : id ≠ 0)
    (hemail : ∀ v ∈ s, v.Email = u.Email → v.ID = id) :
    DeactivateUser storeRepo (DeactivateUser storeRepo s id).2 id
      = (none, (DeactivateUser storeRepo s id).2) := by
  rw [deactivateUser_store_eq s u id hnd hmem hid hdel hpos hemail]
  show DeactivateUser storeRepo
      (s.map (fun v => if v.ID == id && !v.Deleted then u.Deactivate else v)) id
    = (none, s.map (fun v => if v.ID == id && !v.Deleted then u.Deactivate else v))
  obtain ⟨hnd2, hmem2, hemail2, hrows⟩ :=
    replace_facts s u u.Deactivate id hnd hmem hid hdel
      (by simp [User.Deactivate, hid]) (by simp [User.Deactivate, hdel])
      (by simp [User.Deactivate]) hemail
  rw [deactivateUser_store_eq
    (s.map (fun v => if v.ID == id && !v.Deleted then u.Deactivate else v))
    u.Deactivate id hnd2 hmem2 (by simp [User.Deactivate, hid])
    (by simp [User.Deactivate, hdel]) hpos hemail2]
  have hmap : (s.map (fun v => if v.ID == id && !v.Deleted then u.Deactivate else v)).map
      (fun v => if v.ID == id && !v.Deleted then u.Deactivate.Deactivate else v)
    = s.map (fun v => if v.ID == id && !v.Deleted then u.Deactivate else v) := by
    apply map_id_of_mem
    intro v hv
    by_cases hp : (v.ID == id && !v.Deleted) = true
    · rw [if_pos hp, hrows v hv hp]
      rfl
    · rw [if_neg hp]
  rw [hmap]

/-- C9: activation is idempotent in both directions.  For every store
satisfying the primary-key invariant, holding the non-deleted user `u` with
nonzero id whose email no other row shares: `ActivateUser` succeeds and the
stored user afterwards has `Active = true` — also when `u` was already
active, since `u` is arbitrary here; a second `ActivateUser` succeeds and
leaves the state unchanged, so calling it twice equals calling it once; and
both of two consecutive `DeactivateUser` calls succeed, the second leaving
the state unchanged, with the stored flag `false`. -/
theorem activation_idempotent (s : List User) (u : User) (id : Nat)
    (hnd : (s.map User.ID).Nodup) (hmem : u ∈ s) (hid : u.ID = id)
    (hdel : u.Deleted = false) (hpos : id ≠ 0)
    (hemail : ∀ v ∈ s, v.Email = u.Email → v.ID = id) :
    (ActivateUser storeRepo s id).1 = none
    ∧ (GetUser storeRepo (ActivateUser storeRepo s id).2 id).1
        = (some u.Activate, none)
    ∧ u.Activate.Active = true
    ∧ ActivateUser storeRepo (ActivateUser storeRepo s id).2 id
        = (none, (ActivateUser storeRepo s id).2)
    ∧ (DeactivateUser storeRepo s id).1 = none
    ∧ DeactivateUser storeRepo (DeactivateUser storeRepo s id).2 id
        = (none, (DeactivateUser storeRepo s id).2)
    ∧ u.Deactivate.Active = false := by
  have hA := activateUser_store_eq s u id hnd hmem hid hdel hpos hemail
  have hD := deactivateUser_store_eq s u id hnd hmem hid hdel hpos hemail
  obtain ⟨hnd2, hmem2, -, -⟩ :=
    replace_facts s u u.Activate id hnd hmem hid hdel
      (by simp [User.Activate, hid]) (by simp [User.Activate, hdel])
      (by simp [User.Activate]) hemail
  refine ⟨by rw [hA], ?_, rfl,
    activateUser_store_twice s u id hnd hmem hid hdel hpos hemail,
    by rw [hD],
    deactivateUser_store_twice s u id hnd hmem hid hdel hpos hemail, rfl⟩
  rw [hA]
  show (GetUser storeRepo
      (s.map (fun v => if v.ID == id && !v.Deleted then u.Activate else v)) id).1
    = (some u.Activate, none)
  rw [getUser_store_found
    (s.map (fun v => if v.ID == id && !v.Deleted then u.Activate else v))
    u.Activate id hnd2 hmem2 (by simp [User.Activate, hid])
    (by simp [User.Activate, hdel]) hpos]

/-- C9 witness: the one-row store holding Ann, already active, and a second
store check through the deactivate pair. -/
theorem activation_idempotent_witness :
    (ActivateUser storeRepo [annStored] 1).1 = none
    ∧ (GetUser storeRepo (ActivateUser storeRepo [annStored] 1).2 1).1
        = (some annStored.Activate, none)
    ∧ annStored.Activate.Active = true
    ∧ ActivateUser storeRepo (ActivateUser storeRepo [annStored] 1).2 1
        = (none, (ActivateUser storeRepo [annStored] 1).2)
    ∧ (DeactivateUser storeRepo [annStored] 1).1 = none
    ∧ DeactivateUser storeRepo (DeactivateUser storeRepo [annStored] 1).2 1
        = (none, (DeactivateUser storeRepo [annStored] 1).2)
    ∧ annStored.Deactivate.Active = false :=
  activation_idempotent [annStored] annStored 1 (by decide) (by decide) rfl rfl
    (by decide) (by decide)

end GoCA
